import Mathlib

/-!
Verification development for the gRPC-Communication overlay system
(processes A–E answering crash-record queries, with a shared-memory
TTL result cache).

The definitions below are a shallow embedding of the C++ sources:
`DataStore` / `processQuery` and its crash-query helpers
(src/common/data + the crash-data variant of data_structures.cpp),
`SharedCache` (src/common/shared_memory/shared_memory.cpp), and the
per-node query handlers of processes A, B, C and D.

Modelling conventions, fixed once here:
* `std::string` is Lean `String`; raw bytes (`std::vector<uint8_t>`) are
  `List Nat`; strings cross into bytes via their character codes
  (the payloads involved are ASCII).
* `std::unordered_map` is an association list updated in place; the
  iteration order of the C++ map is unspecified, the list order is the
  determinization used here.
* Clocks are explicit `Int` arguments (`now`); the cache's monotonic
  clock is modelled in the same unit as the stored `ttl` field, i.e. in
  milliseconds, matching the contract "now − inserted_at ≤ ttl_ms".
* Multi-byte integers in the serialized cache region are written
  little-endian (the x86-64 `memcpy` layout).
* C++ `double` values are carried as Lean `Float`; their iostream
  rendering is not modelled (floating-point formatting is outside the
  embedding) and no theorem depends on that branch.
-/

namespace Mini2

/-! ## Character / string helpers -/

/-- Character-code bytes of a string (ASCII payloads). -/
def strBytes (s : String) : List Nat := s.toList.map Char.toNat

/-- Bytes back to a string, used when a cached payload is re-read. -/
def bytesStr (l : List Nat) : String := String.mk (l.map Char.ofNat)

/-- Split a character list at every occurrence of `sep`; `n` separators
yield `n+1` segments (the shape `std::getline` exposes). -/
def splitChar (sep : Char) : List Char → List (List Char)
  | [] => [[]]
  | c :: cs =>
    if c = sep then [] :: splitChar sep cs
    else match splitChar sep cs with
      | [] => [[c]]
      | seg :: segs => (c :: seg) :: segs

/-- Rejoin segments with `sep`, inverse of `splitChar`. -/
def joinChar (sep : Char) : List (List Char) → List Char
  | [] => []
  | [seg] => seg
  | seg :: segs => seg ++ sep :: joinChar sep segs

/-- Worker for `getLinesOf`: `cur` holds the reversed characters of
the line being read; a `'\n'` finishes the line and a further `getline`
is attempted only when input remains. -/
def getLinesGo (cur : List Char) : List Char → List (List Char)
  | [] => [cur.reverse]
  | c :: rest =>
    if c = '\n' then
      cur.reverse :: (match rest with
        | [] => []
        | r :: rs => getLinesGo [] (r :: rs))
    else getLinesGo (c :: cur) rest

/-- Successive `std::getline(stream, line)` calls on a whole stream:
on a non-empty stream each call reads up to (and consumes) the next
`'\n'` or the end of input; at end of input the loop stops. -/
def getLinesOf : List Char → List (List Char)
  | [] => []
  | c :: rest => getLinesGo [] (c :: rest)

/-- The character of a decimal digit. -/
def digitChar (n : Nat) : Char :=
  match n with
  | 0 => '0' | 1 => '1' | 2 => '2' | 3 => '3' | 4 => '4'
  | 5 => '5' | 6 => '6' | 7 => '7' | 8 => '8' | _ => '9'

/-- Decimal digits of a natural number, most significant first
(the canonical `operator<<` rendering). -/
def natChars (n : Nat) : List Char :=
  if h : n < 10 then [digitChar n]
  else natChars (n / 10) ++ [digitChar (n % 10)]
  decreasing_by exact Nat.div_lt_self (Nat.lt_of_lt_of_le (by omega) (Nat.le_of_not_lt h)) (by omega)

/-- Canonical decimal rendering of an `int` as produced by `operator<<`. -/
def intChars (i : Int) : List Char :=
  if i < 0 then '-' :: natChars ((-i).toNat) else natChars i.toNat

/-- Value of a digit character. -/
def digitVal (c : Char) : Nat := c.toNat - 48

/-- Is `c` one of `'0'`–`'9'`? -/
def isDig (c : Char) : Bool := 48 ≤ c.toNat && c.toNat ≤ 57

/-- Accumulate decimal digits, `std::stoi`-style. -/
def digitsVal (l : List Char) : Nat := l.foldl (fun a c => a * 10 + digitVal c) 0

/-- Model of `std::stoi`: optional sign, then at least one leading
digit (further non-digit characters are ignored, as `stoi` stops at the
first non-digit); `none` models the `std::invalid_argument` throw. -/
def stoiModel (s : String) : Option Int :=
  match s.toList with
  | [] => none
  | c :: rest =>
    if c = '-' then
      let ds := rest.takeWhile isDig
      if ds = [] then none else some (-(digitsVal ds : Int))
    else
      let ds := (c :: rest).takeWhile isDig
      if ds = [] then none else some ((digitsVal ds : Int))

/-- Model of `std::stod` restricted to plain decimal forms; `none`
models the throw.  No theorem depends on the recovered value. -/
def stodModel (s : String) : Option Float :=
  match stoiModel s with
  | some i => some (Float.ofInt i)
  | none => none

/-- `::toupper` applied characterwise (ASCII). -/
def upper (s : String) : String := String.mk (s.toList.map Char.toUpper)

/-- `std::string::find(sub) != npos`: is `sub` a contiguous substring? -/
def containsSub (hay sub : String) : Bool := decide (sub.toList <:+: hay.toList)

/-- Little-endian byte list of width `w` for a natural number
(`memcpy` of a fixed-width integer on x86-64). -/
def bytesLE (w n : Nat) : List Nat :=
  (List.range w).map (fun i => n / 256 ^ i % 256)

/-- `uint32_t` bytes. -/
def u32le (n : Nat) : List Nat := bytesLE 4 (n % 2 ^ 32)

/-- `int32_t` bytes (two's complement). -/
def i32le (i : Int) : List Nat := bytesLE 4 (i % 2 ^ 32).toNat

/-- `int64_t` bytes (two's complement). -/
def i64le (i : Int) : List Nat := bytesLE 8 (i % 2 ^ 64).toNat

/-! ## Data model (`data_structures.h`) -/

/-- `CrashData`: one traffic-crash record. -/
structure CrashData where
  crash_date : String
  crash_time : String
  borough : String
  zip_code : String
  latitude : String
  longitude : String
  location : String
  on_street_name : String
  cross_street_name : String
  off_street_name : String
  persons_injured : Int
  persons_killed : Int
  pedestrians : Int
deriving DecidableEq, Repr

/-- `DataValue`: the tagged value variant
`{int, double, bool, string, bytes, CrashData}`. -/
inductive DataValue where
  | int (i : Int)
  | double (d : Float)
  | bool (b : Bool)
  | str (s : String)
  | bytes (b : List Nat)
  | crash (c : CrashData)
deriving Repr

/-- `DataEntry`: a keyed, timestamped value. -/
structure DataEntry where
  key : String
  value : DataValue
  timestamp : Int
deriving Repr

/-- `Query`: client-chosen id, verb (`query_string`) and parameters. -/
structure Query where
  id : String
  query_string : String
  parameters : List String
deriving Repr

/-- `QueryResult`: correlation id, status, message and entries.
(The `timing_data` blob is real-time telemetry and is not modelled.) -/
structure QueryResult where
  query_id : String
  success : Bool
  message : String
  results : List DataEntry
deriving Repr

/-- `QueryResult::createSuccess`. -/
def QueryResult.createSuccess (query_id : String) (results : List DataEntry)
    (message : String := "Success") : QueryResult :=
  ⟨query_id, true, message, results⟩

/-- `QueryResult::createFailure`. -/
def QueryResult.createFailure (query_id : String) (error_message : String) : QueryResult :=
  ⟨query_id, false, error_message, []⟩

/-! ## DataStore (`data_structures.cpp`, crash-data variant)

The store's `std::unordered_map<std::string, DataEntry> data_` is an
association list with unique keys; `data_[key] = entry` replaces in
place or appends. -/

/-- The store contents: `key → DataEntry`, keys unique. -/
abbrev StoreMap := List (String × DataEntry)

/-- `data_.find(key)`. -/
def storeFind (m : StoreMap) (key : String) : Option DataEntry :=
  match m with
  | [] => none
  | (k, e) :: rest => if k = key then some e else storeFind rest key

/-- `data_[entry.key] = entry` (upsert, `DataStore::store`). -/
def storeUpsert (m : StoreMap) (entry : DataEntry) : StoreMap :=
  match m with
  | [] => [(entry.key, entry)]
  | (k, e) :: rest =>
    if k = entry.key then (k, entry) :: rest else (k, e) :: storeUpsert rest entry

/-- Erase the (first) binding of `key`, as `data_.erase(it)` does on the
iterator found for `key`. -/
def storeErase (m : StoreMap) (key : String) : StoreMap :=
  match m with
  | [] => []
  | (k, e) :: rest => if k = key then rest else (k, e) :: storeErase rest key

/-- `DataStore::remove`: erase the entry if present, report whether an
entry was found. -/
def storeRemove (m : StoreMap) (key : String) : Bool × StoreMap :=
  match storeFind m key with
  | some _ => (true, storeErase m key)
  | none => (false, m)

/-- `dateToComparable`: full-match against `(\d{1,2})/(\d{1,2})/(\d{4})`
and fold to `year*10000 + month*100 + day`, `0` when the regex does not
match.  The regex is equivalent to: exactly three `/`-separated fields,
all digits, of lengths 1–2, 1–2 and 4. -/
def dateToComparable (date_str : String) : Int :=
  match splitChar '/' date_str.toList with
  | [mo, dy, yr] =>
    if mo.all isDig && dy.all isDig && yr.all isDig
        && decide (1 ≤ mo.length) && decide (mo.length ≤ 2)
        && decide (1 ≤ dy.length) && decide (dy.length ≤ 2)
        && decide (yr.length = 4) then
      (digitsVal yr : Int) * 10000 + (digitsVal mo : Int) * 100 + digitsVal dy
    else 0
  | _ => 0

/-- The `CrashData` payload of an entry, when it holds one
(`std::holds_alternative<CrashData>` / `std::get<CrashData>`). -/
def entryCrash (e : DataEntry) : Option CrashData :=
  match e.value with
  | DataValue.crash c => some c
  | _ => none

/-- `DataStore::getByBorough`: case-insensitive borough scan over the
crash entries.  Note the hard-coded result id `"borough_query"`. -/
def getByBorough (m : StoreMap) (borough : String) : QueryResult :=
  let results := (m.filter (fun p =>
    match entryCrash p.2 with
    | some c => upper c.borough = upper borough
    | none => false)).map (·.2)
  QueryResult.createSuccess "borough_query" results
    ("Found " ++ toString results.length ++ " crashes in " ++ borough)

/-- `DataStore::getByStreet`: upper-cased substring match on the three
street fields.  Result id is the hard-coded `"street_query"`. -/
def getByStreet (m : StoreMap) (street : String) : QueryResult :=
  let results := (m.filter (fun p =>
    match entryCrash p.2 with
    | some c =>
      containsSub (upper c.on_street_name) (upper street)
        || containsSub (upper c.cross_street_name) (upper street)
        || containsSub (upper c.off_street_name) (upper street)
    | none => false)).map (·.2)
  QueryResult.createSuccess "street_query" results
    ("Found " ++ toString results.length ++ " crashes on street containing '" ++ street ++ "'")

/-- `DataStore::getByDateRange`: bounds via `dateToComparable`; either
bound mapping to `0` is rejected.  Result id `"date_range_query"`. -/
def getByDateRange (m : StoreMap) (start_date end_date : String) : QueryResult :=
  let start := dateToComparable start_date
  let stop := dateToComparable end_date
  if start = 0 || stop = 0 then
    QueryResult.createFailure "date_range_query" "Invalid date format. Use MM/DD/YYYY"
  else
    let results := (m.filter (fun p =>
      match entryCrash p.2 with
      | some c =>
        let d := dateToComparable c.crash_date
        decide (start ≤ d) && decide (d ≤ stop)
      | none => false)).map (·.2)
    QueryResult.createSuccess "date_range_query" results
      ("Found " ++ toString results.length ++ " crashes between " ++ start_date
        ++ " and " ++ end_date)

/-- `DataStore::getCrashesWithInjuries`.  Result id `"injuries_query"`. -/
def getCrashesWithInjuries (m : StoreMap) (min_injuries : Int) : QueryResult :=
  let results := (m.filter (fun p =>
    match entryCrash p.2 with
    | some c => decide (min_injuries ≤ c.persons_injured)
    | none => false)).map (·.2)
  QueryResult.createSuccess "injuries_query" results
    ("Found " ++ toString results.length ++ " crashes with at least "
      ++ toString min_injuries ++ " injuries")

/-- `DataStore::getCrashesWithFatalities`.  Result id `"fatalities_query"`. -/
def getCrashesWithFatalities (m : StoreMap) (min_fatalities : Int) : QueryResult :=
  let results := (m.filter (fun p =>
    match entryCrash p.2 with
    | some c => decide (min_fatalities ≤ c.persons_killed)
    | none => false)).map (·.2)
  QueryResult.createSuccess "fatalities_query" results
    ("Found " ++ toString results.length ++ " crashes with at least "
      ++ toString min_fatalities ++ " fatalities")

/-- `DataStore::processQuery`: verb dispatch over the closed set, with
the `"Unknown query: <verb>"` failure as the fall-through. -/
def processQuery (m : StoreMap) (query : Query) : QueryResult :=
  if query.query_string = "get_all" then
    QueryResult.createSuccess query.id (m.map (·.2))
  else if query.query_string = "get_by_key" then
    QueryResult.createSuccess query.id
      (query.parameters.foldr (fun key acc =>
        match storeFind m key with
        | some e => e :: acc
        | none => acc) [])
  else if query.query_string = "get_by_prefix" then
    match query.parameters with
    | [] => QueryResult.createFailure query.id "No prefix provided"
    | p :: _ =>
      QueryResult.createSuccess query.id
        ((m.filter (fun q => p.toList.isPrefixOf q.1.toList)).map (·.2))
  else if query.query_string = "get_by_borough" then
    match query.parameters with
    | [] => QueryResult.createFailure query.id "No borough specified"
    | b :: _ => getByBorough m b
  else if query.query_string = "get_by_street" then
    match query.parameters with
    | [] => QueryResult.createFailure query.id "No street specified"
    | s :: _ => getByStreet m s
  else if query.query_string = "get_by_date_range" then
    match query.parameters with
    | d1 :: d2 :: _ => getByDateRange m d1 d2
    | _ => QueryResult.createFailure query.id "Date range requires start and end dates"
  else if query.query_string = "get_crashes_with_injuries" then
    getCrashesWithInjuries m
      (match query.parameters with
       | [] => 1
       | p :: _ => (stoiModel p).getD 1)
  else if query.query_string = "get_crashes_with_fatalities" then
    getCrashesWithFatalities m
      (match query.parameters with
       | [] => 1
       | p :: _ => (stoiModel p).getD 1)
  else
    QueryResult.createFailure query.id ("Unknown query: " ++ query.query_string)

/-! ## SharedCache (`shared_memory.cpp`)

The cache keeps an in-memory map and mirrors it into a fixed-capacity
byte region on every mutation (`serializeToMemory`).  `max_size_` is
both the serialization bound and the region's byte size. -/

/-- `CacheEntry { data, timestamp, ttl }`. -/
structure CacheEntry where
  data : List Nat
  timestamp : Int
  ttl : Int
deriving Repr, DecidableEq

/-- The `SharedCache` state: the map, the mapped region bytes, and the
capacity `max_size_`. -/
structure SharedCacheState where
  map : List (String × CacheEntry)
  region : List Nat
  maxSize : Nat
deriving Repr

/-- `cache_map_.find(key)`. -/
def cacheFind (m : List (String × CacheEntry)) (key : String) : Option CacheEntry :=
  match m with
  | [] => none
  | (k, e) :: rest => if k = key then some e else cacheFind rest key

/-- `cache_map_[key] = entry` (replace in place or append). -/
def cacheUpsert (m : List (String × CacheEntry)) (key : String) (e : CacheEntry) :
    List (String × CacheEntry) :=
  match m with
  | [] => [(key, e)]
  | (k, e₀) :: rest =>
    if k = key then (k, e) :: rest else (k, e₀) :: cacheUpsert rest key e

/-- One serialized map entry:
`u32 key_len, key bytes, u32 val_len, val bytes, i64 inserted_at, i32 ttl`. -/
def serializeCacheEntry (key : String) (e : CacheEntry) : List Nat :=
  u32le (strBytes key).length ++ strBytes key
    ++ u32le e.data.length ++ e.data
    ++ i64le e.timestamp ++ i32le e.ttl

/-- `SharedCache::serializeToMemory`'s buffer:
`u32 n_entries` then the entries in map order. -/
def serializeCacheMap (m : List (String × CacheEntry)) : List Nat :=
  u32le m.length ++ (m.map (fun p => serializeCacheEntry p.1 p.2)).flatten

/-- The region after `serializeToMemory`: a fitting buffer overwrites
its prefix of the region; an oversized buffer is cut to `max_size_`
bytes and written anyway (only an error is logged). -/
def regionAfterSerialize (m : List (String × CacheEntry)) (maxSize : Nat)
    (region : List Nat) : List Nat :=
  let buffer := serializeCacheMap m
  if buffer.length ≤ maxSize then buffer ++ region.drop buffer.length
  else buffer.take maxSize ++ region.drop maxSize

/-- `SharedCache::get` at monotonic time `now`: a present entry with
`ttl > 0` is a miss once `now > timestamp + ttl`; otherwise its payload
is returned.  An expired entry is not erased (lazy eviction). -/
def SharedCacheState.get (st : SharedCacheState) (key : String) (now : Int) :
    Option (List Nat) :=
  match cacheFind st.map key with
  | none => none
  | some e =>
    if e.ttl > 0 && decide (now > e.timestamp + e.ttl) then none
    else some e.data

/-- `SharedCache::put` at time `now`: store the entry, rewrite the
region, and return `true` unconditionally. -/
def SharedCacheState.put (st : SharedCacheState) (key : String) (data : List Nat)
    (ttl_ms : Int) (now : Int) : Bool × SharedCacheState :=
  let m := cacheUpsert st.map key ⟨data, now, ttl_ms⟩
  (true, { st with map := m, region := regionAfterSerialize m st.maxSize st.region })

/-! ## Cached-result text encoding (intermediate nodes)

Nodes B/C/D/E cache a successful result as one `key,type,value` line
per entry; on a cache hit the lines are parsed back with three
`std::getline` calls per line. -/

/-- Bytes of a character list. -/
def charBytes (l : List Char) : List Nat := l.map Char.toNat

/-- The `type,value` tail of one serialized line.  Entries that hold
neither `int`, `double`, `bool` nor `string` (i.e. `CrashData` and raw
bytes) are written as the placeholder `string,CrashData:<key>`.
The `double` rendering is approximated by Lean's `toString`; no theorem
depends on it. -/
def cacheLineValue (e : DataEntry) : List Char :=
  match e.value with
  | DataValue.int i => "int,".toList ++ intChars i
  | DataValue.double d => "double,".toList ++ (toString d).toList
  | DataValue.bool b => "bool,".toList ++ (if b then "true" else "false").toList
  | DataValue.str s => "string,".toList ++ s.toList
  | _ => "string,CrashData:".toList ++ e.key.toList

/-- One serialized line, `<key>,<type>,<value>\n`. -/
def serializeResultLine (e : DataEntry) : List Char :=
  e.key.toList ++ ',' :: cacheLineValue e ++ ['\n']

/-- The whole cached payload for a result's entry list. -/
def serializeResults (es : List DataEntry) : List Char :=
  (es.map serializeResultLine).flatten

/-- The three `getline(line_iss, ·, ',')`/`getline(line_iss, ·)` reads
on one line: key up to the first comma, type up to the second, value =
the non-empty rest of the line.  `none` when any read fails, in which
case the C++ loop silently skips the line. -/
def parseCacheLine (line : List Char) : Option (String × String × String) :=
  match splitChar ',' line with
  | k :: t :: rest =>
    if rest = [] then none
    else
      let v := joinChar ',' rest
      if v = [] then none else some (String.mk k, String.mk t, String.mk v)
  | _ => none

/-- Rebuild one `DataEntry` from a parsed line; the deserialized entry
is stamped with the current wall-clock time (`getCurrentTimestamp`),
passed in as `now`.  `none` models an uncaught `std::stoi`/`std::stod`
throw on a malformed numeric value. -/
def entryOfCacheLine (now : Int) (key type_str value_str : String) : Option DataEntry :=
  if type_str = "int" then
    (stoiModel value_str).map (fun i => ⟨key, DataValue.int i, now⟩)
  else if type_str = "double" then
    (stodModel value_str).map (fun d => ⟨key, DataValue.double d, now⟩)
  else if type_str = "bool" then
    some ⟨key, DataValue.bool (value_str = "true" || value_str = "1"), now⟩
  else
    some ⟨key, DataValue.str value_str, now⟩

/-- The cache-hit line loop: unparsable lines are skipped, numeric
throws abort the whole handler. -/
def collectCacheLines (now : Int) : List (List Char) → Option (List DataEntry)
  | [] => some []
  | line :: rest =>
    match parseCacheLine line with
    | none => collectCacheLines now rest
    | some (k, t, v) =>
      match entryOfCacheLine now k t v with
      | none => none
      | some e => (collectCacheLines now rest).map (e :: ·)

/-- Deserialize a whole cached payload. -/
def deserializeCachedData (now : Int) (l : List Char) : Option (List DataEntry) :=
  collectCacheLines now (getLinesOf l)

/-! ## Node handlers

Each handler is modelled as a function of the local store, the cache
state, the already-connected peer stubs (each a total responder
`Query → QueryResult`), the inbound query and the current time.  It
returns the response, the list of downstream queries issued, and the
new cache state; `none` models an escaped exception in cache-payload
parsing.  Timing-ledger calls are real-time telemetry and are not
modelled. -/

/-- A handler outcome: response, downstream fan-out, updated cache. -/
structure HandlerOutcome where
  result : QueryResult
  sent : List Query
  cache : SharedCacheState
deriving Repr

/-- Process B's cache key: `"query_" + verb` then `"_" + p` per
parameter (process_b.cpp, lines 114–117). -/
def processB_cacheKey (q : Query) : String :=
  q.parameters.foldl (fun k p => k ++ "_" ++ p) ("query_" ++ q.query_string)

/-- `ProcessB::shouldForwardQuery` (process_b.cpp, lines 235–243). -/
def processB_shouldForwardQuery (q : Query) : Bool :=
  q.query_string == "get_by_street" ||
  q.query_string == "get_by_key" ||
  q.query_string == "get_by_prefix" ||
  q.query_string == "get_by_date_range" ||
  q.query_string == "get_crashes_with_injuries" ||
  q.query_string == "get_crashes_with_fatalities" ||
  q.query_string == "get_by_time"

/-- Process B's forwarding guard (process_b.cpp, lines 169–170):
never for `get_by_borough`, otherwise `get_all` or the forward set. -/
def processB_forwards (q : Query) : Bool :=
  !(q.query_string == "get_by_borough")
    && (q.query_string == "get_all" || processB_shouldForwardQuery q)

/-- Process B's local evaluation (process_b.cpp, lines 160–164): only a
`get_by_borough` whose first parameter is exactly `"BROOKLYN"` takes the
dedicated borough path; every other query — including `get_by_borough`
for other boroughs — goes through `DataStore::processQuery`. -/
def processB_localEval (m : StoreMap) (q : Query) : QueryResult :=
  match q.parameters with
  | b :: _ =>
    if q.query_string = "get_by_borough" && b = "BROOKLYN" then
      getByBorough m "BROOKLYN"
    else processQuery m q
  | [] => processQuery m q

/-- The cache-miss path of `ProcessB::handleQuery`: local evaluation
followed by the guarded fan-out and merge; yields the response and the
downstream queries issued. -/
def processB_missResult (m : StoreMap) (peers : List (Query → QueryResult))
    (q : Query) : QueryResult × List Query :=
  let local₀ := processB_localEval m q
  if processB_forwards q then
    let downstream := (peers.map (fun p => p q)).filter (·.success)
    ({ local₀ with
        message := "Combined results from Process B and "
          ++ toString downstream.length ++ " downstream processes",
        results := local₀.results ++ (downstream.map (·.results)).flatten },
      peers.map (fun _ => q))
  else (local₀, ([] : List Query))

/-- `ProcessB::handleQuery` (process_b.cpp, lines 102–233): cache
lookup, local evaluation, guarded fan-out and merge, cache store on
success. -/
def processB_handleQuery (m : StoreMap) (cache : SharedCacheState)
    (peers : List (Query → QueryResult)) (q : Query) (now : Int) :
    Option HandlerOutcome :=
  let key := processB_cacheKey q
  match cache.get key now with
  | some data =>
    match deserializeCachedData now (data.map Char.ofNat) with
    | none => none
    | some entries => some ⟨⟨q.id, true, "From cache", entries⟩, [], cache⟩
  | none =>
    let step := processB_missResult m peers q
    let cache' :=
      if step.1.success then
        (cache.put key (charBytes (serializeResults step.1.results)) 5000 now).2
      else cache
    some ⟨step.1, step.2, cache'⟩

/-- Process A's cache key (process_a.cpp, lines 222–225): the verb with
`"_" + p` appended per parameter — note, without the `"query_"` prefix
used by the other nodes. -/
def processA_cacheKey (q : Query) : String :=
  q.parameters.foldl (fun k p => k ++ "_" ++ p) q.query_string

/-- Process A's portal cache encoding (`QueryCache::put`):
`<success>,<message>,<count>` then `,<key>,<type>,<value>` per entry;
values that are neither int, double, bool nor string are written as the
(value-less) field `unknown,`. -/
def queryCacheEncode (r : QueryResult) : List Char :=
  (if r.success then "true" else "false").toList ++ ",".toList
    ++ r.message.toList ++ ",".toList ++ natChars r.results.length
    ++ (r.results.map (fun e =>
        ",".toList ++ e.key.toList ++ ",".toList
          ++ match e.value with
             | DataValue.int i => "int,".toList ++ intChars i
             | DataValue.double d => "double,".toList ++ (toString d).toList
             | DataValue.bool b =>
               "bool,".toList ++ (if b then "true" else "false").toList
             | DataValue.str s => "string,".toList ++ s.toList
             | _ => "unknown,".toList)).flatten

/-- Field `idx` of a comma-separated stream as read by successive
`getline(iss, ·, ',')` calls: the segment when present, the empty
string once the stream is exhausted. -/
def fieldAt (l : List Char) (idx : Nat) : String :=
  String.mk ((splitChar ',' l).getD idx [])

/-- `QueryCache::get`'s payload parse: success flag, message and count
from the first three fields, then `count` triples of fields; missing
fields read back as empty strings.  `none` models the `std::stoi`
throw on a malformed count or numeric value. -/
def queryCacheParse (now : Int) (query_id : String) (l : List Char) :
    Option QueryResult :=
  match stoiModel (fieldAt l 2) with
  | none => none
  | some count =>
    if count < 0 then none
    else
      let entries := (List.range count.toNat).mapM (fun i =>
        entryOfCacheLine now (fieldAt l (3 + 3 * i)) (fieldAt l (4 + 3 * i))
          (fieldAt l (5 + 3 * i)))
      entries.map (fun es =>
        ⟨query_id, fieldAt l 0 = "true", fieldAt l 1, es⟩)

/-- `ProcessA::handleQuery` (process_a.cpp, lines 209–278): cache
lookup, then an unconditional fan-out to every connected peer — there
is no forwarding guard at the portal — merge of the successful
responses into an always-successful result, and an unconditional cache
store. -/
def processA_handleQuery (cache : SharedCacheState)
    (peers : List (Query → QueryResult)) (q : Query) (now : Int) :
    Option HandlerOutcome :=
  let key := processA_cacheKey q
  match cache.get key now with
  | some data =>
    match queryCacheParse now key (data.map Char.ofNat) with
    | none => none
    | some r => some ⟨{ r with message := "From cache: " ++ r.message }, [], cache⟩
  | none =>
    let downstream := (peers.map (fun p => p q)).filter (·.success)
    let results := (downstream.map (·.results)).flatten
    let final : QueryResult :=
      ⟨q.id, true,
        "Combined results from " ++ toString downstream.length ++ " sources ("
          ++ toString results.length ++ " total entries)",
        results⟩
    some ⟨final, peers.map (fun _ => q),
      (cache.put key (charBytes (queryCacheEncode final)) 10000 now).2⟩

/-- Process C's cache key (process_c.cpp, line 136): `"query_"` plus the
client-chosen query id — not the verb and parameters. -/
def processC_cacheKey (q : Query) : String := "query_" ++ q.id

/-- `ProcessC::shouldForwardQuery` (process_c.cpp, lines 232–236):
only `get_by_prefix` and `get_by_key`. -/
def processC_shouldForwardQuery (q : Query) : Bool :=
  q.query_string == "get_by_prefix" || q.query_string == "get_by_key"

/-- Process C's forwarding guard (process_c.cpp, line 187). -/
def processC_forwards (q : Query) : Bool :=
  q.query_string == "get_all" || processC_shouldForwardQuery q

/-- Process D's cache key (unnamed part_003, line 103): same shape as
Process B's. -/
def processD_cacheKey (q : Query) : String :=
  q.parameters.foldl (fun k p => k ++ "_" ++ p) ("query_" ++ q.query_string)

/-- `ProcessD::shouldForwardQuery` (unnamed part_003, lines 195–200). -/
def processD_shouldForwardQuery (q : Query) : Bool :=
  q.query_string == "get_by_street" ||
  q.query_string == "get_by_key" ||
  q.query_string == "get_by_prefix" ||
  q.query_string == "get_by_date_range" ||
  q.query_string == "get_crashes_with_injuries" ||
  q.query_string == "get_crashes_with_fatalities" ||
  q.query_string == "get_by_time"

/-- Process D's forwarding guard (unnamed part_003, line 148). -/
def processD_forwards (q : Query) : Bool :=
  !(q.query_string == "get_by_borough")
    && (q.query_string == "get_all" || processD_shouldForwardQuery q)

/-- Process E's cache key (unnamed part_004, lines 104–107): same shape
as Process B's. -/
def processE_cacheKey (q : Query) : String :=
  q.parameters.foldl (fun k p => k ++ "_" ++ p) ("query_" ++ q.query_string)

/-! ## Spec-side definitions (for refinement comparisons only) -/

/-- The joined-parameter suffix `"".join("_"+p for p in params)`. -/
def joinParams : List String → String
  | [] => ""
  | p :: ps => "_" ++ p ++ joinParams ps

/-- Modelled from the spec: the CacheKey contract,
`key = "query_" + verb + "".join("_"+p for p in params)`. -/
def spec_cacheKey (q : Query) : String :=
  "query_" ++ q.query_string ++ joinParams q.parameters

/-- Modelled from the spec: the ForwardDecision contract — forward iff
the verb is `get_all` or lies in the forward set `F`. -/
def spec_forwardDecision (verb : String) : Bool :=
  verb == "get_all" ||
  verb == "get_by_street" ||
  verb == "get_by_key" ||
  verb == "get_by_prefix" ||
  verb == "get_by_date_range" ||
  verb == "get_crashes_with_injuries" ||
  verb == "get_crashes_with_fatalities" ||
  verb == "get_by_time"

/-! ## Fixtures and characterizations used by the theorems -/

/-- A freshly created cache over a zeroed region of `cap` bytes. -/
def emptyCache (cap : Nat) : SharedCacheState :=
  ⟨[], List.replicate cap 0, cap⟩

/-- Fixture: a single QUEENS crash row sitting in Process B's store. -/
def queensCrash : CrashData :=
  ⟨"12/14/2021", "8:00", "QUEENS", "11368", "", "", "", "QUEENS BOULEVARD", "", "", 1, 0, 0⟩

/-- Fixture: Process B's store holding only that QUEENS row. -/
def queensStore : StoreMap :=
  [("crash_0", ⟨"crash_0", DataValue.crash queensCrash, 5⟩)]

/-- The closed verb set of the spec (§4.2/§6). -/
def knownVerbs : List String :=
  ["get_all", "get_by_key", "get_by_prefix", "get_by_borough", "get_by_street",
   "get_by_date_range", "get_crashes_with_injuries", "get_crashes_with_fatalities",
   "get_by_time"]

/-- The correlation id `processQuery` actually produces: `Q.id` for
`get_all`, `get_by_key`, `get_by_prefix`, for unknown verbs and for the
missing-parameter failures, but the fixed labels `"borough_query"`,
`"street_query"`, `"date_range_query"`, `"injuries_query"` and
`"fatalities_query"` for the five crash-query verbs once they reach
their dedicated evaluator. -/
def c9ExpectedId (q : Query) : String :=
  if q.query_string = "get_by_borough" then
    (match q.parameters with | [] => q.id | _ :: _ => "borough_query")
  else if q.query_string = "get_by_street" then
    (match q.parameters with | [] => q.id | _ :: _ => "street_query")
  else if q.query_string = "get_by_date_range" then
    (match q.parameters with | _ :: _ :: _ => "date_range_query" | _ => q.id)
  else if q.query_string = "get_crashes_with_injuries" then "injuries_query"
  else if q.query_string = "get_crashes_with_fatalities" then "fatalities_query"
  else q.id

/-- A key survives the `key,type,value` line encoding iff it contains
neither the field separator nor the line separator. -/
def cleanKey (s : String) : Bool :=
  !s.toList.contains ',' && !s.toList.contains '\n'

/-- The values that round-trip through the line encoding exactly:
ints, bools, and non-empty newline-free strings.  `CrashData` is
replaced by a placeholder, `double` is rendered lossily, and an empty
string value makes its whole line unreadable. -/
def cleanValue : DataValue → Bool
  | DataValue.int _ => true
  | DataValue.bool _ => true
  | DataValue.str s => !s.toList.isEmpty && !s.toList.contains '\n'
  | _ => false

/-! ## Shared lemmas -/

/-- Looking up the key just upserted yields the new entry. -/
theorem cacheFind_cacheUpsert (m : List (String × CacheEntry)) (key : String)
    (e : CacheEntry) : cacheFind (cacheUpsert m key e) key = some e := by
  induction m with
  | nil => simp [cacheUpsert, cacheFind]
  | cons p rest ih =>
    by_cases h : p.1 = key
    · simp [cacheUpsert, cacheFind, h]
    · simp [cacheUpsert, cacheFind, h, ih]

/-! ## C1 — cache TTL freshness -/

/-- C1: an entry stored by `put` with positive `ttl` is returned by
`get` at every `now ≤ inserted_at + ttl` and is a miss at every
`now > inserted_at + ttl`; an entry with `ttl = 0` is returned at any
time. -/
theorem C1_ttl_freshness (st : SharedCacheState) (key : String) (data : List Nat)
    (ttl_ms t now : Int) :
    (ttl_ms = 0 → ((st.put key data ttl_ms t).2.get key now) = some data)
    ∧ (0 < ttl_ms → now ≤ t + ttl_ms →
        ((st.put key data ttl_ms t).2.get key now) = some data)
    ∧ (0 < ttl_ms → t + ttl_ms < now →
        ((st.put key data ttl_ms t).2.get key now) = none) := by
  have hfind : cacheFind (cacheUpsert st.map key ⟨data, t, ttl_ms⟩) key
      = some ⟨data, t, ttl_ms⟩ := cacheFind_cacheUpsert _ _ _
  refine ⟨fun h₁ => ?_, fun h₁ h₂ => ?_, fun h₁ h₂ => ?_⟩
  · subst h₁
    simp [SharedCacheState.put, SharedCacheState.get, hfind]
  · simp [SharedCacheState.put, SharedCacheState.get, hfind,
      show ¬ now > t + ttl_ms by omega]
  · simp [SharedCacheState.put, SharedCacheState.get, hfind, h₁, h₂]

/-- C1 witness: a concrete `put`/`get` pair at and just after the
boundary, and a `ttl = 0` entry read far in the future. -/
theorem C1_ttl_freshness_witness :
    (((SharedCacheState.mk [] (List.replicate 64 0) 64).put "k" [1, 2] 0 10).2.get
        "k" 99999 = some [1, 2])
    ∧ (((SharedCacheState.mk [] (List.replicate 64 0) 64).put "k" [1, 2] 5000 10).2.get
        "k" 5010 = some [1, 2])
    ∧ (((SharedCacheState.mk [] (List.replicate 64 0) 64).put "k" [1, 2] 5000 10).2.get
        "k" 5011 = none) :=
  ⟨(C1_ttl_freshness _ "k" [1, 2] 0 10 99999).1 rfl,
   (C1_ttl_freshness _ "k" [1, 2] 5000 10 5010).2.1 (by decide) (by decide),
   (C1_ttl_freshness _ "k" [1, 2] 5000 10 5011).2.2 (by decide) (by decide)⟩

/-! ## C2 — cache-key computation -/

/-- The `cache_key += "_" + param` loop appends the joined suffix. -/
theorem foldl_key_append (ps : List String) (init : String) :
    ps.foldl (fun k p => k ++ "_" ++ p) init = init ++ joinParams ps := by
  induction ps generalizing init with
  | nil => simp [joinParams]
  | cons p ps ih =>
    rw [List.foldl_cons, ih, joinParams]
    simp [String.append_assoc]

/-- C2 counterexample: for the very same `(verb, params)` the portal A
computes a key without the `"query_"` prefix, and node C keys by the
client-chosen query id, so two queries with equal `(verb, params)` but
distinct ids get different keys at C.  The claimed key is only produced
at nodes B, D and E. -/
theorem C2_counterexample :
    spec_cacheKey ⟨"7", "get_by_borough", ["BRONX"]⟩ = "query_get_by_borough_BRONX"
    ∧ processA_cacheKey ⟨"7", "get_by_borough", ["BRONX"]⟩ = "get_by_borough_BRONX"
    ∧ processA_cacheKey ⟨"7", "get_by_borough", ["BRONX"]⟩
        ≠ spec_cacheKey ⟨"7", "get_by_borough", ["BRONX"]⟩
    ∧ processC_cacheKey ⟨"7", "get_by_borough", ["BRONX"]⟩ = "query_7"
    ∧ processC_cacheKey ⟨"7", "get_by_borough", ["BRONX"]⟩
        ≠ processC_cacheKey ⟨"8", "get_by_borough", ["BRONX"]⟩ := by
  refine ⟨rfl, rfl, by decide, rfl, by decide⟩

/-- C2 amended: nodes B, D and E compute the claimed key
`"query_" + verb + "".join("_"+p)`; the portal A omits the `"query_"`
prefix (its key is `verb + "".join("_"+p)`); node C uses
`"query_" + id`, which depends on the query id rather than on
`(verb, params)`. -/
theorem C2_amended (q : Query) :
    processB_cacheKey q = spec_cacheKey q
    ∧ processD_cacheKey q = spec_cacheKey q
    ∧ processE_cacheKey q = spec_cacheKey q
    ∧ processA_cacheKey q = q.query_string ++ joinParams q.parameters
    ∧ processC_cacheKey q = "query_" ++ q.id := by
  refine ⟨?_, ?_, ?_, ?_, rfl⟩ <;>
    simp only [processB_cacheKey, processD_cacheKey, processE_cacheKey,
      processA_cacheKey, spec_cacheKey, foldl_key_append]

/-! ## C3 — forwarding decision -/

/-- C3 counterexample: node C does not forward `get_by_street` although
it is in the claimed forward set, and the portal A forwards a
`get_by_borough` query (and indeed any query) to its connected peer,
although the claim says `get_by_borough` is never forwarded. -/
theorem C3_counterexample :
    processC_forwards ⟨"7", "get_by_street", ["MAIN"]⟩ = false
    ∧ spec_forwardDecision "get_by_street" = true
    ∧ (processA_handleQuery (emptyCache 64)
        [fun q => QueryResult.createFailure q.id "x"]
        ⟨"7", "get_by_borough", ["BRONX"]⟩ 0).map (fun o => o.sent.length) = some 1
    ∧ spec_forwardDecision "get_by_borough" = false := by
  refine ⟨rfl, rfl, rfl, rfl⟩

/-- C3 amended: nodes B and D forward exactly per the claimed decision
(`get_all` or the seven-verb forward set, never `get_by_borough`,
never unknown verbs); node C only forwards `get_all`, `get_by_key` and
`get_by_prefix`; the portal A forwards every query to every connected
peer whenever its cache misses, with no verb guard at all. -/
theorem C3_amended (q : Query) :
    processB_forwards q = spec_forwardDecision q.query_string
    ∧ processD_forwards q = spec_forwardDecision q.query_string
    ∧ processC_forwards q = (q.query_string == "get_all"
        || q.query_string == "get_by_key" || q.query_string == "get_by_prefix")
    ∧ ∀ (cache : SharedCacheState) (peers : List (Query → QueryResult)) (now : Int),
        cache.get (processA_cacheKey q) now = none →
        (processA_handleQuery cache peers q now).map HandlerOutcome.sent
          = some (peers.map fun _ => q) := by
  refine ⟨?_, ?_, ?_, ?_⟩
  · by_cases hb : q.query_string = "get_by_borough"
    · simp [processB_forwards, processB_shouldForwardQuery, spec_forwardDecision, hb]
    · simp [processB_forwards, processB_shouldForwardQuery, spec_forwardDecision, hb,
        Bool.or_assoc]
  · by_cases hb : q.query_string = "get_by_borough"
    · simp [processD_forwards, processD_shouldForwardQuery, spec_forwardDecision, hb]
    · simp [processD_forwards, processD_shouldForwardQuery, spec_forwardDecision, hb,
        Bool.or_assoc]
  · rcases hp : q.query_string == "get_by_prefix" <;>
      rcases hk : q.query_string == "get_by_key" <;>
      rcases ha : q.query_string == "get_all" <;>
      simp [processC_forwards, processC_shouldForwardQuery, hp, hk, ha]
  · intro cache peers now h
    simp [processA_handleQuery, h]

/-- C3 witness: the amended portal clause evaluated at a concrete query
with one connected peer and an empty cache. -/
theorem C3_amended_witness :
    (processA_handleQuery (emptyCache 64) [fun q => QueryResult.createSuccess q.id []]
        ⟨"9", "get_by_moon_phase", ["full"]⟩ 0).map HandlerOutcome.sent
      = some [⟨"9", "get_by_moon_phase", ["full"]⟩] :=
  (C3_amended ⟨"9", "get_by_moon_phase", ["full"]⟩).2.2.2 (emptyCache 64)
    [fun q => QueryResult.createSuccess q.id []] 0 rfl

/-! ## C4 — `get_by_borough` at a non-owner node -/

/-- C4 counterexample: at node B (owner of BROOKLYN), a
`get_by_borough QUEENS` query is answered from the *full local scan* —
B's dispatch only special-cases `"BROOKLYN"` and otherwise falls
through to `DataStore::processQuery` — so with a QUEENS row in B's
store the local contribution is a success with a non-empty entry list,
not the claimed empty one. -/
theorem C4_counterexample :
    (processB_handleQuery queensStore (emptyCache 256) []
        ⟨"q1", "get_by_borough", ["QUEENS"]⟩ 0).map
        (fun o => (o.result.success, o.result.results.map DataEntry.key, o.sent.length))
      = some (true, ["crash_0"], 0) := by
  rfl

/-- C4 amended: for `get_by_borough b` with `b ≠ "BROOKLYN"`, node B's
local contribution is the full borough scan `getByBorough b` over its
own store (a success), whose entry list is empty exactly when no local
crash row carries borough `b` (case-insensitively) — not
unconditionally empty; the query is still never forwarded. -/
theorem C4_amended (m : StoreMap) (id b : String) (rest : List String)
    (hb : b ≠ "BROOKLYN") :
    processB_localEval m ⟨id, "get_by_borough", b :: rest⟩ = getByBorough m b
    ∧ (processB_localEval m ⟨id, "get_by_borough", b :: rest⟩).success = true
    ∧ ((processB_localEval m ⟨id, "get_by_borough", b :: rest⟩).results = []
        ↔ ∀ p ∈ m, ∀ c, entryCrash p.2 = some c → upper c.borough ≠ upper b)
    ∧ processB_forwards ⟨id, "get_by_borough", b :: rest⟩ = false := by
  have hdisp : processB_localEval m ⟨id, "get_by_borough", b :: rest⟩
      = getByBorough m b := by
    simp [processB_localEval, hb, processQuery]
  refine ⟨hdisp, by rw [hdisp]; rfl, ?_, rfl⟩
  rw [hdisp]
  simp only [getByBorough, QueryResult.createSuccess, List.map_eq_nil_iff,
    List.filter_eq_nil_iff]
  constructor
  · intro h p hp c hc
    have hph := h p hp
    rw [hc] at hph
    simpa using hph
  · intro h p hp
    cases hc : entryCrash p.2 with
    | none => simp
    | some c => simpa using h p hp c hc

/-- C4 witness: the amended statement evaluated on the QUEENS fixture. -/
theorem C4_amended_witness :
    processB_localEval queensStore ⟨"q1", "get_by_borough", ["QUEENS"]⟩
        = getByBorough queensStore "QUEENS"
    ∧ processB_forwards ⟨"q1", "get_by_borough", ["QUEENS"]⟩ = false := by
  have h := C4_amended queensStore "q1" "QUEENS" [] (by decide)
  exact ⟨h.1, h.2.2.2⟩

/-! ## C5 — unknown verbs -/

/-- C5 counterexample: at the portal A an unknown verb is *not*
answered with `success=false, "Unknown query: …"`.  A forwards the
query to its (failing) peer, returns `success=true` with a combined
message and zero entries, and writes a cache entry. -/
theorem C5_counterexample :
    (processA_handleQuery (emptyCache 128)
        [fun q => QueryResult.createFailure q.id ("Unknown query: " ++ q.query_string)]
        ⟨"q9", "get_by_moon_phase", ["full"]⟩ 0).map
        (fun o => (o.result.success, o.result.message, o.sent.length, o.cache.map.length))
      = some (true, "Combined results from 0 sources (0 total entries)", 1, 1) := by
  rfl

/-- C5 amended: at node B an unknown verb yields the claimed
`success=false` result with message `"Unknown query: <verb>"`, no
downstream query and an unchanged cache; the portal A instead forwards
it to every connected peer, returns `success=true` with a
combined-results message and no entries (all peers having failed), and
writes a cache entry for it. -/
theorem C5_amended (m : StoreMap) (cache : SharedCacheState)
    (peers : List (Query → QueryResult)) (q : Query) (now : Int)
    (hv : q.query_string ∉ knownVerbs) :
    (cache.get (processB_cacheKey q) now = none →
      processB_handleQuery m cache peers q now
        = some ⟨QueryResult.createFailure q.id ("Unknown query: " ++ q.query_string),
            [], cache⟩)
    ∧ (cache.get (processA_cacheKey q) now = none →
        (∀ p ∈ peers, (p q).success = false) →
        (processA_handleQuery cache peers q now).map
            (fun o => (o.result.success, o.result.message, o.result.results,
              o.sent.length, (o.cache.get (processA_cacheKey q) now).isSome))
          = some (true, "Combined results from 0 sources (0 total entries)", [],
              peers.length, true)) := by
  obtain ⟨h1, h2, h3, h4, h5, h6, h7, h8, h9⟩ :
      q.query_string ≠ "get_all" ∧ q.query_string ≠ "get_by_key"
      ∧ q.query_string ≠ "get_by_prefix" ∧ q.query_string ≠ "get_by_borough"
      ∧ q.query_string ≠ "get_by_street" ∧ q.query_string ≠ "get_by_date_range"
      ∧ q.query_string ≠ "get_crashes_with_injuries"
      ∧ q.query_string ≠ "get_crashes_with_fatalities"
      ∧ q.query_string ≠ "get_by_time" := by
    simpa [knownVerbs] using hv
  constructor
  · intro hmiss
    have hqp : processQuery m q
        = QueryResult.createFailure q.id ("Unknown query: " ++ q.query_string) := by
      simp [processQuery, h1, h2, h3, h4, h5, h6, h7, h8]
    have hle : processB_localEval m q
        = QueryResult.createFailure q.id ("Unknown query: " ++ q.query_string) := by
      cases hp : q.parameters with
      | nil => rw [processB_localEval, hp, ← hqp]
      | cons b rest => simp [processB_localEval, hp, h4, hqp]
    have hfw : processB_forwards q = false := by
      simp [processB_forwards, processB_shouldForwardQuery,
        h1, h2, h3, h4, h5, h6, h7, h8, h9]
    simp [processB_handleQuery, processB_missResult, hmiss, hle, hfw, QueryResult.createFailure]
  · intro hmiss hall
    have hd : (peers.map (fun p => p q)).filter (fun r => r.success) = [] := by
      rw [List.filter_eq_nil_iff]
      intro r hr
      obtain ⟨p, hp, hpr⟩ := List.mem_map.mp hr
      simp [← hpr, hall p hp]
    simp only [processA_handleQuery]
    rw [hmiss]
    simp [hd, SharedCacheState.put, SharedCacheState.get, cacheFind_cacheUpsert,
      show ¬ now > now + (10000 : Int) by omega]
    rfl

/-- C5 witness: the amended statement at a concrete unknown-verb query,
an empty cache, and one peer that answers with a failure. -/
theorem C5_amended_witness :
    processB_handleQuery [] (emptyCache 64)
        [fun q => QueryResult.createFailure q.id ("Unknown query: " ++ q.query_string)]
        ⟨"q9", "get_by_moon_phase", ["full"]⟩ 0
      = some ⟨QueryResult.createFailure "q9" "Unknown query: get_by_moon_phase",
          [], emptyCache 64⟩ := by
  have h := C5_amended [] (emptyCache 64)
    [fun q => QueryResult.createFailure q.id ("Unknown query: " ++ q.query_string)]
    ⟨"q9", "get_by_moon_phase", ["full"]⟩ 0 (by decide)
  exact h.1 rfl

/-! ## C6 — `get_by_date_range` -/

/-- C6 counterexample: `"13/40/2021"` — the claim's own example of a
malformed date — matches the digit-count regex of `dateToComparable`
(ranges are never checked), so the query *succeeds* instead of
returning the claimed failure. -/
theorem C6_counterexample :
    dateToComparable "13/40/2021" = 20211340
    ∧ (getByDateRange [] "13/40/2021" "12/31/2021").success = true
    ∧ (getByDateRange [] "13/40/2021" "12/31/2021").message
        ≠ "Invalid date format. Use MM/DD/YYYY" := by
  refine ⟨by decide, rfl, by decide⟩

/-- C6 amended: a date is malformed exactly when it fails the pattern
`\d{1,2}/\d{1,2}/\d{4}` (out-of-range components such as `13/40/2021`
are accepted and compared numerically).  When either bound is malformed
in that sense, the result is the failure
`"Invalid date format. Use MM/DD/YYYY"` and node B writes no cache
entry; when both bounds are well-formed, the result succeeds and holds
exactly the crash entries whose date comparable lies in
`[comp d1, comp d2]`. -/
theorem C6_amended (m : StoreMap) (d1 d2 : String) :
    (dateToComparable d1 = 0 ∨ dateToComparable d2 = 0 →
      getByDateRange m d1 d2
        = QueryResult.createFailure "date_range_query" "Invalid date format. Use MM/DD/YYYY")
    ∧ (dateToComparable d1 ≠ 0 → dateToComparable d2 ≠ 0 →
        (getByDateRange m d1 d2).success = true
        ∧ ∀ e, e ∈ (getByDateRange m d1 d2).results ↔
            (∃ k, (k, e) ∈ m) ∧ ∃ c, entryCrash e = some c
              ∧ dateToComparable d1 ≤ dateToComparable c.crash_date
              ∧ dateToComparable c.crash_date ≤ dateToComparable d2)
    ∧ (∀ (id : String) (cache : SharedCacheState)
        (peers : List (Query → QueryResult)) (now : Int),
        dateToComparable d1 = 0 ∨ dateToComparable d2 = 0 →
        cache.get (processB_cacheKey ⟨id, "get_by_date_range", [d1, d2]⟩) now = none →
        (processB_handleQuery m cache peers ⟨id, "get_by_date_range", [d1, d2]⟩ now).map
          HandlerOutcome.cache = some cache) := by
  refine ⟨fun h => by rcases h with h | h <;> simp [getByDateRange, h], ?_, ?_⟩
  · intro h1 h2
    have hif : ¬(dateToComparable d1 = 0 ∨ dateToComparable d2 = 0) := by tauto
    refine ⟨by simp [getByDateRange, hif, QueryResult.createSuccess], fun e => ?_⟩
    have hres : (getByDateRange m d1 d2).results
        = (m.filter (fun p =>
            match entryCrash p.2 with
            | some c =>
              decide (dateToComparable d1 ≤ dateToComparable c.crash_date)
                && decide (dateToComparable c.crash_date ≤ dateToComparable d2)
            | none => false)).map (fun p => p.2) := by
      simp [getByDateRange, hif, QueryResult.createSuccess]
    rw [hres]
    simp only [List.mem_map, List.mem_filter]
    constructor
    · rintro ⟨⟨k, e'⟩, ⟨hm, hp⟩, rfl⟩
      refine ⟨⟨k, hm⟩, ?_⟩
      cases hc : entryCrash e' with
      | none => rw [hc] at hp; simp at hp
      | some c =>
        rw [hc] at hp
        simp only [Bool.and_eq_true, decide_eq_true_eq] at hp
        exact ⟨c, rfl, hp.1, hp.2⟩
    · rintro ⟨⟨k, hm⟩, c, hc, hb1, hb2⟩
      refine ⟨(k, e), ⟨hm, ?_⟩, rfl⟩
      show (match entryCrash e with
        | some c =>
          decide (dateToComparable d1 ≤ dateToComparable c.crash_date)
            && decide (dateToComparable c.crash_date ≤ dateToComparable d2)
        | none => false) = true
      simp only [hc, Bool.and_eq_true, decide_eq_true_eq]
      exact ⟨hb1, hb2⟩
  · intro id cache peers now h0 hmiss
    have hfail : processB_localEval m ⟨id, "get_by_date_range", [d1, d2]⟩
        = QueryResult.createFailure "date_range_query"
            "Invalid date format. Use MM/DD/YYYY" := by
      have hd : getByDateRange m d1 d2
          = QueryResult.createFailure "date_range_query"
              "Invalid date format. Use MM/DD/YYYY" := by
        rcases h0 with h | h <;> simp [getByDateRange, h]
      simp [processB_localEval, processQuery, hd]
    simp only [processB_handleQuery]
    rw [hmiss]
    simp [processB_missResult, hfail, QueryResult.createFailure, processB_forwards, processB_shouldForwardQuery]

/-- C6 witness: a genuinely non-matching date fails and leaves B's
cache untouched, while a well-formed range succeeds. -/
theorem C6_amended_witness :
    getByDateRange [] "2021-12-31" "12/31/2021"
      = QueryResult.createFailure "date_range_query" "Invalid date format. Use MM/DD/YYYY"
    ∧ (getByDateRange [] "12/01/2021" "12/31/2021").success = true
    ∧ (processB_handleQuery [] (emptyCache 64) []
        ⟨"q1", "get_by_date_range", ["2021-12-31", "12/31/2021"]⟩ 0).map
        HandlerOutcome.cache = some (emptyCache 64) := by
  have h := C6_amended [] "2021-12-31" "12/31/2021"
  have h2 := C6_amended [] "12/01/2021" "12/31/2021"
  exact ⟨h.1 (Or.inl (by decide)), (h2.2.1 (by decide) (by decide)).1,
    h.2.2 "q1" (emptyCache 64) [] 0 (Or.inl (by decide)) rfl⟩

/-! ## C9 — result correlation ids -/

/-- C9 counterexample: a successful `get_by_borough` result carries the
hard-coded id `"borough_query"`, not the client-chosen `Q.id`, both at
the store level and through B's handler. -/
theorem C9_counterexample :
    (processQuery queensStore ⟨"q1", "get_by_borough", ["QUEENS"]⟩).query_id
      = "borough_query"
    ∧ ("borough_query" : String) ≠ "q1"
    ∧ (processB_handleQuery queensStore (emptyCache 256) []
        ⟨"q1", "get_by_borough", ["QUEENS"]⟩ 0).map (fun o => o.result.query_id)
      = some "borough_query" := by
  refine ⟨rfl, by decide, rfl⟩

/-- C9 amended: the produced `query_id` equals `Q.id` only on the
`get_all`/`get_by_key`/`get_by_prefix` paths and on failures; the five
crash-specific evaluators replace it by their fixed labels, as
characterised by `c9ExpectedId`. -/
theorem C9_amended (m : StoreMap) (q : Query) :
    (processQuery m q).query_id = c9ExpectedId q := by
  by_cases h1 : q.query_string = "get_all"
  · simp [processQuery, c9ExpectedId, h1, QueryResult.createSuccess, QueryResult.createFailure]
  by_cases h2 : q.query_string = "get_by_key"
  · simp [processQuery, c9ExpectedId, h1, h2, QueryResult.createSuccess, QueryResult.createFailure]
  by_cases h3 : q.query_string = "get_by_prefix"
  · cases hp : q.parameters <;> simp [processQuery, c9ExpectedId, h1, h2, h3, hp, QueryResult.createSuccess, QueryResult.createFailure]
  by_cases h4 : q.query_string = "get_by_borough"
  · cases hp : q.parameters <;>
      simp [processQuery, c9ExpectedId, h1, h2, h3, h4, hp, getByBorough, QueryResult.createSuccess, QueryResult.createFailure]
  by_cases h5 : q.query_string = "get_by_street"
  · cases hp : q.parameters <;>
      simp [processQuery, c9ExpectedId, h1, h2, h3, h4, h5, hp, getByStreet, QueryResult.createSuccess, QueryResult.createFailure]
  by_cases h6 : q.query_string = "get_by_date_range"
  · rcases hp : q.parameters with _ | ⟨d1, _ | ⟨d2, rest⟩⟩
    · simp [processQuery, c9ExpectedId, h1, h2, h3, h4, h5, h6, hp,
        QueryResult.createFailure]
    · simp [processQuery, c9ExpectedId, h1, h2, h3, h4, h5, h6, hp,
        QueryResult.createFailure]
    · have hq : processQuery m q = getByDateRange m d1 d2 := by
        simp [processQuery, h1, h2, h3, h4, h5, h6, hp]
      have hid : c9ExpectedId q = "date_range_query" := by
        simp [c9ExpectedId, h4, h5, h6, hp]
      rw [hq, hid]
      simp only [getByDateRange]
      split <;> rfl
  by_cases h7 : q.query_string = "get_crashes_with_injuries"
  · cases hp : q.parameters <;>
      simp [processQuery, c9ExpectedId, h1, h2, h3, h4, h5, h6, h7, hp,
        getCrashesWithInjuries, QueryResult.createSuccess]
  by_cases h8 : q.query_string = "get_crashes_with_fatalities"
  · cases hp : q.parameters <;>
      simp [processQuery, c9ExpectedId, h1, h2, h3, h4, h5, h6, h7, h8, hp,
        getCrashesWithFatalities, QueryResult.createSuccess]
  · simp [processQuery, c9ExpectedId, h1, h2, h3, h4, h5, h6, h7, h8, QueryResult.createFailure]

/-! ## C7 — capacity overflow on `put` -/

/-- C7 counterexample: a `put` whose serialized image exceeds the
region's 30-byte capacity still returns `true` (no error), and the
region no longer holds the previously stored valid image — the cache
wrote a truncated prefix of the *new* image over it. -/
theorem C7_counterexample :
    ((emptyCache 30).put "k" [7] 5000 0).1 = true
    ∧ ((((emptyCache 30).put "k" [7] 5000 0).2).put "ab" [1, 2, 3, 4, 5] 5000 1).1 = true
    ∧ (serializeCacheMap
        ((((emptyCache 30).put "k" [7] 5000 0).2).put "ab" [1, 2, 3, 4, 5] 5000 1).2.map).length
        > 30
    ∧ ((((emptyCache 30).put "k" [7] 5000 0).2).put "ab" [1, 2, 3, 4, 5] 5000 1).2.region
        ≠ (((emptyCache 30).put "k" [7] 5000 0).2).region := by
  refine ⟨rfl, rfl, by decide, by decide⟩

/-- C7 amended: `put` returns `true` unconditionally; when the
serialized image exceeds `max_size_` the first `max_size_` bytes of the
*new* image are written over the region (the old image is lost, only an
error line is logged); the in-memory map itself is updated, so a
subsequent `get` of the key still returns the new payload. -/
theorem C7_amended (st : SharedCacheState) (key : String) (data : List Nat)
    (ttl now : Int) :
    (st.put key data ttl now).1 = true
    ∧ (0 ≤ ttl → (st.put key data ttl now).2.get key now = some data)
    ∧ ((serializeCacheMap (cacheUpsert st.map key ⟨data, now, ttl⟩)).length > st.maxSize →
        (st.put key data ttl now).2.region
          = (serializeCacheMap (cacheUpsert st.map key ⟨data, now, ttl⟩)).take st.maxSize
            ++ st.region.drop st.maxSize) := by
  refine ⟨rfl, fun h => ?_, fun h => ?_⟩
  · simp [SharedCacheState.put, SharedCacheState.get, cacheFind_cacheUpsert,
      show ¬ now > now + ttl by omega]
  · simp [SharedCacheState.put, regionAfterSerialize,
      show ¬ (serializeCacheMap (cacheUpsert st.map key ⟨data, now, ttl⟩)).length
        ≤ st.maxSize by omega]

/-- C7 witness: the amended statement on a concrete overflowing `put`
into an 8-byte region. -/
theorem C7_amended_witness :
    ((emptyCache 8).put "k" [7] 5000 0).1 = true
    ∧ ((emptyCache 8).put "k" [7] 5000 0).2.get "k" 0 = some [7]
    ∧ ((emptyCache 8).put "k" [7] 5000 0).2.region
        = (serializeCacheMap (cacheUpsert [] "k" ⟨[7], 0, 5000⟩)).take 8
          ++ (List.replicate 8 0).drop 8 := by
  have h := C7_amended (emptyCache 8) "k" [7] 5000 0
  exact ⟨h.1, h.2.1 (by decide), h.2.2 (by decide)⟩

/-! ## C8 — idempotence / cache round-trip lemmas -/

/-- `splitChar` always yields at least one segment. -/
theorem splitChar_ne_nil (sep : Char) (l : List Char) : splitChar sep l ≠ [] := by
  induction l with
  | nil => simp [splitChar]
  | cons c cs ih =>
    by_cases h : c = sep
    · simp [splitChar, h]
    · cases hs : splitChar sep cs with
      | nil => exact absurd hs ih
      | cons seg segs => simp [splitChar, h, hs]

/-- Splitting at the first separator after a separator-free chunk. -/
theorem splitChar_append_sep (sep : Char) (l rest : List Char) (h : sep ∉ l) :
    splitChar sep (l ++ sep :: rest) = l :: splitChar sep rest := by
  induction l with
  | nil => simp [splitChar]
  | cons c cs ih =>
    have hc : ¬ c = sep := fun he => h (he ▸ List.mem_cons_self c cs)
    have hcs : sep ∉ cs := fun hm => h (List.mem_cons_of_mem c hm)
    rw [List.cons_append]
    simp [splitChar, hc, ih hcs]

/-- A separator-free list is one whole segment. -/
theorem splitChar_no_sep (sep : Char) (l : List Char) (h : sep ∉ l) :
    splitChar sep l = [l] := by
  induction l with
  | nil => rfl
  | cons c cs ih =>
    have hc : ¬ c = sep := fun he => h (he ▸ List.mem_cons_self c cs)
    have hcs : sep ∉ cs := fun hm => h (List.mem_cons_of_mem c hm)
    simp [splitChar, hc, ih hcs]

/-- `joinChar` pulls a head character out of the first segment. -/
theorem joinChar_cons_head (sep c : Char) (seg : List Char) (segs : List (List Char)) :
    joinChar sep ((c :: seg) :: segs) = c :: joinChar sep (seg :: segs) := by
  cases segs <;> simp [joinChar]

/-- `joinChar` is a left inverse of `splitChar`. -/
theorem joinChar_splitChar (sep : Char) (l : List Char) :
    joinChar sep (splitChar sep l) = l := by
  induction l with
  | nil => rfl
  | cons c cs ih =>
    by_cases h : c = sep
    · subst h
      rw [splitChar]
      cases hs : splitChar c cs with
      | nil => exact absurd hs (splitChar_ne_nil c cs)
      | cons seg segs =>
        rw [hs] at ih
        simp [joinChar, ih]
    · cases hs : splitChar sep cs with
      | nil => exact absurd hs (splitChar_ne_nil sep cs)
      | cons seg segs =>
        rw [hs] at ih
        rw [splitChar]
        simp only [h, if_false, hs]
        rw [joinChar_cons_head, ih]

/-- `getLinesGo` detaches a newline-terminated line, prepending the
accumulator read so far. -/
theorem getLinesGo_line (line rest : List Char) (h : '\n' ∉ line) :
    ∀ cur, getLinesGo cur (line ++ '\n' :: rest)
      = (cur.reverse ++ line) :: getLinesOf rest := by
  induction line with
  | nil =>
    intro cur
    cases rest <;> simp [getLinesGo, getLinesOf]
  | cons c cs ih =>
    intro cur
    have hc : ¬ c = '\n' := fun he => h (he ▸ List.mem_cons_self c cs)
    rw [List.cons_append, getLinesGo.eq_def]
    simp only [hc, if_false]
    rw [ih (fun hm => h (List.mem_cons_of_mem c hm)) (c :: cur)]
    simp

/-- One `getline` over a newline-terminated line. -/
theorem getLinesOf_cons_line (line rest : List Char) (h : '\n' ∉ line) :
    getLinesOf (line ++ '\n' :: rest) = line :: getLinesOf rest := by
  cases hl : line with
  | nil => simpa using getLinesGo_line [] rest (by simp) []
  | cons c cs =>
    rw [List.cons_append, getLinesOf]
    rw [show (c :: (cs ++ '\n' :: rest)) = (c :: cs) ++ '\n' :: rest from rfl]
    rw [getLinesGo_line (c :: cs) rest (hl ▸ h) []]
    simp

/-- `getline` over a flattened list of newline-terminated lines. -/
theorem getLinesOf_flatten (ls : List (List Char)) (h : ∀ l ∈ ls, '\n' ∉ l) :
    getLinesOf ((ls.map (· ++ ['\n'])).flatten) = ls := by
  induction ls with
  | nil => simp [getLinesOf]
  | cons a as ih =>
    rw [List.map_cons, List.flatten_cons, List.append_assoc]
    rw [show ['\n'] ++ (as.map (· ++ ['\n'])).flatten
        = '\n' :: (as.map (· ++ ['\n'])).flatten from rfl]
    rw [getLinesOf_cons_line a _ (h a (List.mem_cons_self a as)),
      ih (fun l hl => h l (List.mem_cons_of_mem a hl))]

/-- `digitChar` and `digitVal` are inverse on digits. -/
theorem digitVal_digitChar (n : Nat) (h : n < 10) : digitVal (digitChar n) = n := by
  interval_cases n <;> rfl

/-- `digitChar` produces digit characters. -/
theorem isDig_digitChar (n : Nat) (h : n < 10) : isDig (digitChar n) = true := by
  interval_cases n <;> rfl

/-- `digitsVal` peels the last digit. -/
theorem digitsVal_append_digit (l : List Char) (c : Char) :
    digitsVal (l ++ [c]) = digitsVal l * 10 + digitVal c := by
  simp [digitsVal]

/-- The decimal rendering of a natural number consists of digits, is
non-empty, and evaluates back to the number. -/
theorem natChars_spec (n : Nat) :
    (∀ c ∈ natChars n, isDig c = true) ∧ natChars n ≠ []
      ∧ digitsVal (natChars n) = n := by
  induction n using Nat.strong_induction_on with
  | _ n ih =>
    by_cases h : n < 10
    · rw [natChars, dif_pos h]
      refine ⟨?_, by simp, ?_⟩
      · intro c hc
        rw [List.mem_singleton] at hc
        exact hc ▸ isDig_digitChar n h
      · simp [digitsVal, digitVal_digitChar n h]
    · rw [natChars, dif_neg h]
      have hd : n / 10 < n := Nat.div_lt_self (by omega) (by omega)
      obtain ⟨ha, hne, hv⟩ := ih (n / 10) hd
      refine ⟨?_, by simp, ?_⟩
      · intro c hc
        rcases List.mem_append.mp hc with hc | hc
        · exact ha c hc
        · rw [List.mem_singleton] at hc
          exact hc ▸ isDig_digitChar _ (Nat.mod_lt _ (by omega))
      · rw [digitsVal_append_digit, hv, digitVal_digitChar _ (Nat.mod_lt _ (by omega))]
        omega

/-- A digit character is not the minus sign. -/
theorem isDig_ne_dash (c : Char) (h : isDig c = true) : c ≠ '-' := by
  intro he
  subst he
  simp [isDig] at h

/-- A digit character is not a comma and not a newline. -/
theorem isDig_ne_sep (c : Char) (h : isDig c = true) : c ≠ ',' ∧ c ≠ '\n' := by
  constructor <;> intro he <;> subst he <;> simp [isDig] at h

/-- `std::stoi` recovers an `int` from its canonical rendering. -/
theorem stoiModel_intChars (i : Int) : stoiModel (String.mk (intChars i)) = some i := by
  rw [intChars]
  by_cases h : i < 0
  · rw [if_pos h]
    obtain ⟨ha, hne, hv⟩ := natChars_spec (-i).toNat
    have htw : (natChars (-i).toNat).takeWhile isDig = natChars (-i).toNat :=
      List.takeWhile_eq_self_iff.mpr ha
    simp [stoiModel, htw, hne, hv]
    omega
  · rw [if_neg h]
    obtain ⟨ha, hne, hv⟩ := natChars_spec i.toNat
    obtain ⟨c, cs, hcons⟩ := List.exists_cons_of_ne_nil hne
    have hc : isDig c = true := ha c (hcons ▸ List.mem_cons_self c cs)
    have hcd : ¬ c = '-' := isDig_ne_dash c hc
    have htw : (natChars i.toNat).takeWhile isDig = natChars i.toNat :=
      List.takeWhile_eq_self_iff.mpr ha
    rw [hcons] at htw hv ⊢
    simp [stoiModel, hcd, htw, hv, Int.toNat_of_nonneg (by omega : (0 : Int) ≤ i)]

/-- Every character of an `int` rendering is the sign or a digit. -/
theorem mem_intChars (i : Int) (c : Char) (h : c ∈ intChars i) :
    c = '-' ∨ isDig c = true := by
  rw [intChars] at h
  by_cases hi : i < 0
  · rw [if_pos hi] at h
    rcases List.mem_cons.mp h with h | h
    · exact Or.inl h
    · exact Or.inr ((natChars_spec _).1 c h)
  · rw [if_neg hi] at h
    exact Or.inr ((natChars_spec _).1 c h)

/-- An `int` rendering is never empty. -/
theorem intChars_ne_nil (i : Int) : intChars i ≠ [] := by
  rw [intChars]
  by_cases hi : i < 0
  · simp [if_pos hi]
  · simp [if_neg hi, (natChars_spec _).2.1]

/-- An `int` rendering contains no comma and no newline. -/
theorem intChars_no_sep (i : Int) : ',' ∉ intChars i ∧ '\n' ∉ intChars i := by
  constructor <;> intro h <;> rcases mem_intChars i _ h with h' | h' <;>
    first
      | exact absurd h' (by decide)
      | simp [isDig] at h'

/-- Three comma-separated fields parse back from a line whenever the
first two are comma-free and the value is non-empty (the value itself
may contain commas — it is the whole tail of the line). -/
theorem parseCacheLine_fields (k t v : List Char)
    (hkc : ',' ∉ k) (htc : ',' ∉ t) (hvne : v ≠ []) :
    parseCacheLine (k ++ ',' :: (t ++ ',' :: v))
      = some (String.mk k, String.mk t, String.mk v) := by
  have hrest := splitChar_ne_nil ',' v
  have hjoin := joinChar_splitChar ',' v
  simp only [parseCacheLine, splitChar_append_sep _ _ _ hkc,
    splitChar_append_sep _ _ _ htc]
  cases hs : splitChar ',' v with
  | nil => exact absurd hs hrest
  | cons s ss =>
    rw [hs] at hjoin
    simp [hjoin, hvne]

/-- One encoded line parses back to the entry itself (modulo the
timestamp, which is re-stamped with the deserialization time). -/
theorem roundtrip_line (now : Int) (e : DataEntry)
    (hk : cleanKey e.key = true) (hv : cleanValue e.value = true) :
    ∃ k t v, parseCacheLine (e.key.toList ++ ',' :: cacheLineValue e) = some (k, t, v)
      ∧ entryOfCacheLine now k t v = some ⟨e.key, e.value, now⟩ := by
  have hk' : ',' ∉ e.key.toList ∧ '\n' ∉ e.key.toList := by
    simpa [cleanKey] using hk
  cases hval : e.value with
  | int i =>
    refine ⟨e.key, "int", String.mk (intChars i), ?_, ?_⟩
    · rw [show cacheLineValue e = "int".toList ++ ',' :: intChars i by
        simp [cacheLineValue, hval]]
      exact parseCacheLine_fields _ _ _ hk'.1 (by decide) (intChars_ne_nil i)
    · simp [entryOfCacheLine, stoiModel_intChars]
  | bool b =>
    cases b with
    | true =>
      refine ⟨e.key, "bool", "true", ?_, ?_⟩
      · rw [show cacheLineValue e = "bool".toList ++ ',' :: "true".toList by
          simp [cacheLineValue, hval]]
        exact parseCacheLine_fields _ _ _ hk'.1 (by decide) (by decide)
      · simp [entryOfCacheLine]
    | false =>
      refine ⟨e.key, "bool", "false", ?_, ?_⟩
      · rw [show cacheLineValue e = "bool".toList ++ ',' :: "false".toList by
          simp [cacheLineValue, hval]]
        exact parseCacheLine_fields _ _ _ hk'.1 (by decide) (by decide)
      · simp [entryOfCacheLine]
  | str s =>
    have hs : ¬ s.toList.isEmpty ∧ '\n' ∉ s.toList := by
      simpa [cleanValue, hval] using hv
    refine ⟨e.key, "string", s, ?_, ?_⟩
    · rw [show cacheLineValue e = "string".toList ++ ',' :: s.toList by
        simp [cacheLineValue, hval]]
      rw [show (s : String) = String.mk s.toList from rfl]
      exact parseCacheLine_fields _ _ _ hk'.1 (by decide)
        (by simpa [List.isEmpty_iff] using hs.1)
    · simp [entryOfCacheLine]
  | double d => simp [cleanValue, hval] at hv
  | bytes b => simp [cleanValue, hval] at hv
  | crash c => simp [cleanValue, hval] at hv

/-- An encoded line contains no newline. -/
theorem line_no_newline (e : DataEntry)
    (hk : cleanKey e.key = true) (hv : cleanValue e.value = true) :
    '\n' ∉ (e.key.toList ++ ',' :: cacheLineValue e) := by
  have hk' : ',' ∉ e.key.toList ∧ '\n' ∉ e.key.toList := by
    simpa [cleanKey] using hk
  have hvl : '\n' ∉ cacheLineValue e := by
    cases hval : e.value with
    | int i =>
      rw [show cacheLineValue e = "int".toList ++ ',' :: intChars i by
        simp [cacheLineValue, hval]]
      intro hmem
      rcases List.mem_append.mp hmem with h | h
      · exact absurd h (by decide)
      rcases List.mem_cons.mp h with h | h
      · exact absurd h (by decide)
      · exact (intChars_no_sep i).2 h
    | bool b =>
      rw [show cacheLineValue e
          = "bool,".toList ++ (if b then "true" else "false").toList by
        simp [cacheLineValue, hval]]
      cases b <;> decide
    | str s =>
      have hs : ¬ s.toList.isEmpty ∧ '\n' ∉ s.toList := by
        simpa [cleanValue, hval] using hv
      rw [show cacheLineValue e = "string,".toList ++ s.toList by
        simp [cacheLineValue, hval]]
      intro hmem
      rcases List.mem_append.mp hmem with h | h
      · exact absurd h (by decide)
      · exact hs.2 h
    | double d => simp [cleanValue, hval] at hv
    | bytes b => simp [cleanValue, hval] at hv
    | crash c => simp [cleanValue, hval] at hv
  intro hmem
  rcases List.mem_append.mp hmem with h | h
  · exact hk'.2 h
  rcases List.mem_cons.mp h with h | h
  · exact absurd h (by decide)
  · exact hvl h

/-- The whole line loop rebuilds the entry list, in order. -/
theorem collect_encoded_lines (now : Int) (es : List DataEntry)
    (h : ∀ e ∈ es, cleanKey e.key = true ∧ cleanValue e.value = true) :
    collectCacheLines now (es.map (fun e => e.key.toList ++ ',' :: cacheLineValue e))
      = some (es.map (fun e => ⟨e.key, e.value, now⟩)) := by
  induction es with
  | nil => rfl
  | cons e rest ih =>
    obtain ⟨hk, hv⟩ := h e (List.mem_cons_self e rest)
    obtain ⟨k, t, v, hp, he⟩ := roundtrip_line now e hk hv
    simp only [List.map_cons, collectCacheLines, hp, he]
    rw [ih (fun x hx => h x (List.mem_cons_of_mem e hx))]
    rfl

/-- Deserialization inverts serialization on clean entries, re-stamping
the timestamps with the read time. -/
theorem deserialize_serializeResults (now : Int) (es : List DataEntry)
    (h : ∀ e ∈ es, cleanKey e.key = true ∧ cleanValue e.value = true) :
    deserializeCachedData now (serializeResults es)
      = some (es.map (fun e => ⟨e.key, e.value, now⟩)) := by
  rw [deserializeCachedData, serializeResults]
  have hmap : es.map serializeResultLine
      = (es.map (fun e => e.key.toList ++ ',' :: cacheLineValue e)).map
          (· ++ ['\n']) := by
    rw [List.map_map]
    refine List.map_congr_left (fun e _ => ?_)
    simp [serializeResultLine]
  rw [hmap, getLinesOf_flatten]
  · exact collect_encoded_lines now es h
  · intro l hl
    obtain ⟨e, hme, hle⟩ := List.mem_map.mp hl
    exact hle ▸ line_no_newline e (h e hme).1 (h e hme).2

/-- C8 counterexample: at node B the second, cache-served run of the
same `get_all` query returns the same key multiset but *different*
entries — the `CrashData` value comes back as the placeholder string
`"CrashData:crash_0"` — so the entry sets are not equal as multisets. -/
theorem C8_counterexample :
    (processB_handleQuery queensStore (emptyCache 400) [] ⟨"q1", "get_all", []⟩ 0).map
        (fun o => o.result.results.map (fun e => e.key)) = some ["crash_0"]
    ∧ (processB_handleQuery queensStore (emptyCache 400) [] ⟨"q1", "get_all", []⟩ 0).map
        (fun o => o.result.results.map (fun e => (entryCrash e).isSome)) = some [true]
    ∧ ((processB_handleQuery queensStore (emptyCache 400) [] ⟨"q1", "get_all", []⟩ 0).bind
        (fun o => processB_handleQuery queensStore o.cache [] ⟨"q1", "get_all", []⟩ 0)).map
        (fun o => o.result.results.map (fun e => e.key)) = some ["crash_0"]
    ∧ ((processB_handleQuery queensStore (emptyCache 400) [] ⟨"q1", "get_all", []⟩ 0).bind
        (fun o => processB_handleQuery queensStore o.cache [] ⟨"q1", "get_all", []⟩ 0)).map
        (fun o => o.result.results.map (fun e => (entryCrash e).isSome)) = some [false]
    ∧ ((processB_handleQuery queensStore (emptyCache 400) [] ⟨"q1", "get_all", []⟩ 0).bind
        (fun o => processB_handleQuery queensStore o.cache [] ⟨"q1", "get_all", []⟩ 0)).map
        (fun o => o.result.results.map (fun e =>
          match e.value with | DataValue.str s => s | _ => "")) =
        some ["CrashData:crash_0"] := by
  refine ⟨rfl, rfl, rfl, rfl, rfl⟩

/-- C8 amended: at node B, repeating a query back-to-back with no
intervening writes serves the second run from the cache; the key
multiset is preserved, and when every entry of the first result has a
comma/newline-free key and an int, bool, or non-empty newline-free
string value, the entries themselves round-trip exactly (timestamps
re-stamped with the read time).  `CrashData` values are instead
returned as the placeholder string `"CrashData:<key>"` (see the
counterexample), and `double` values only up to formatting. -/
theorem C8_amended (m : StoreMap) (cache : SharedCacheState)
    (peers peers' : List (Query → QueryResult)) (q : Query) (now : Int)
    (hmiss : cache.get (processB_cacheKey q) now = none)
    (hsucc : (processB_missResult m peers q).1.success = true)
    (hclean : ∀ e ∈ (processB_missResult m peers q).1.results,
      cleanKey e.key = true ∧ cleanValue e.value = true) :
    (processB_handleQuery m cache peers q now).map (fun o => o.result.results)
      = some (processB_missResult m peers q).1.results
    ∧ ((processB_handleQuery m cache peers q now).bind (fun o =>
        processB_handleQuery m o.cache peers' q now)).map (fun o => o.result.results)
      = some ((processB_missResult m peers q).1.results.map
          (fun e => ⟨e.key, e.value, now⟩)) := by
  have hfirst : processB_handleQuery m cache peers q now
      = some ⟨(processB_missResult m peers q).1, (processB_missResult m peers q).2,
          (cache.put (processB_cacheKey q)
            (charBytes (serializeResults (processB_missResult m peers q).1.results))
            5000 now).2⟩ := by
    simp only [processB_handleQuery]
    rw [hmiss]
    simp [hsucc]
  have hget : ((cache.put (processB_cacheKey q)
      (charBytes (serializeResults (processB_missResult m peers q).1.results))
      5000 now).2).get (processB_cacheKey q) now
      = some (charBytes (serializeResults (processB_missResult m peers q).1.results)) := by
    simp [SharedCacheState.put, SharedCacheState.get, cacheFind_cacheUpsert,
      show ¬ now > now + (5000 : Int) by omega]
  have hchars : (charBytes
      (serializeResults (processB_missResult m peers q).1.results)).map Char.ofNat
      = serializeResults (processB_missResult m peers q).1.results := by
    simp [charBytes, List.map_map, Function.comp_def, Char.ofNat_toNat]
  refine ⟨by rw [hfirst]; rfl, ?_⟩
  rw [hfirst]
  simp only [Option.some_bind]
  simp only [processB_handleQuery, hget, hchars,
    deserialize_serializeResults now _ hclean]
  rfl

/-- C8 witness: the amended statement exercised on a store of one int
entry and one bool entry. -/
theorem C8_amended_witness :
    ((processB_handleQuery
        [("a", ⟨"a", DataValue.int 42, 0⟩), ("b", ⟨"b", DataValue.bool true, 0⟩)]
        (emptyCache 400) [] ⟨"q1", "get_all", []⟩ 7).bind (fun o =>
        processB_handleQuery
          [("a", ⟨"a", DataValue.int 42, 0⟩), ("b", ⟨"b", DataValue.bool true, 0⟩)]
          o.cache [] ⟨"q1", "get_all", []⟩ 7)).map (fun o => o.result.results)
      = some ((processB_missResult
          [("a", ⟨"a", DataValue.int 42, 0⟩), ("b", ⟨"b", DataValue.bool true, 0⟩)]
          [] ⟨"q1", "get_all", []⟩).1.results.map
          (fun e => ⟨e.key, e.value, 7⟩)) :=
  (C8_amended
    [("a", ⟨"a", DataValue.int 42, 0⟩), ("b", ⟨"b", DataValue.bool true, 0⟩)]
    (emptyCache 400) [] [] ⟨"q1", "get_all", []⟩ 7 rfl rfl (by decide)).2

/-! ## C10 — `DataStore::remove` -/

/-- An absent key reads as `none`. -/
theorem storeFind_eq_none_of_not_mem (m : StoreMap) (key : String)
    (h : key ∉ m.map Prod.fst) : storeFind m key = none := by
  induction m with
  | nil => rfl
  | cons p rest ih =>
    obtain ⟨k, e⟩ := p
    simp only [List.map_cons, List.mem_cons] at h
    push_neg at h
    have hk : k ≠ key := fun he => h.1 he.symm
    simpa [storeFind, hk] using ih h.2

/-- With unique keys, the erased key no longer reads. -/
theorem storeFind_storeErase_self (m : StoreMap) (key : String)
    (hnd : (m.map Prod.fst).Nodup) : storeFind (storeErase m key) key = none := by
  induction m with
  | nil => rfl
  | cons p rest ih =>
    obtain ⟨k, e⟩ := p
    simp only [List.map_cons, List.nodup_cons] at hnd
    by_cases h : k = key
    · subst h
      simpa [storeErase] using storeFind_eq_none_of_not_mem rest k hnd.1
    · simpa [storeErase, storeFind, h] using ih hnd.2

/-- Erasing one key leaves every other key's reading unchanged. -/
theorem storeFind_storeErase_ne (m : StoreMap) (key k' : String) (h : k' ≠ key) :
    storeFind (storeErase m key) k' = storeFind m k' := by
  induction m with
  | nil => rfl
  | cons p rest ih =>
    obtain ⟨k, e⟩ := p
    by_cases hp : k = key
    · subst hp
      have h2 : k ≠ k' := fun he => h (he ▸ rfl)
      simp [storeErase, storeFind, h2]
    · by_cases hk : k = k'
      · subst hk
        simp [storeErase, storeFind, hp]
      · simp [storeErase, storeFind, hp, hk, ih]

/-- C10: `remove` returns `true` exactly when an entry with the key is
present; on `true` precisely that binding is gone (every other key reads
as before); on `false` the store is unchanged.  The no-duplicate-keys
hypothesis is the `unordered_map` invariant. -/
theorem C10_remove_spec (m : StoreMap) (key : String)
    (hnd : (m.map Prod.fst).Nodup) :
    ((storeRemove m key).1 = true ↔ (storeFind m key).isSome = true)
    ∧ ((storeRemove m key).1 = false → (storeRemove m key).2 = m)
    ∧ ((storeRemove m key).1 = true → storeFind (storeRemove m key).2 key = none)
    ∧ (∀ k', k' ≠ key → storeFind (storeRemove m key).2 k' = storeFind m k') := by
  refine ⟨?_, ?_, ?_, ?_⟩
  · cases h : storeFind m key <;> simp [storeRemove, h]
  · cases h : storeFind m key <;> simp [storeRemove, h]
  · cases h : storeFind m key <;> simp [storeRemove, h]
    exact storeFind_storeErase_self m key hnd
  · intro k' hk
    cases h : storeFind m key <;> simp [storeRemove, h]
    exact storeFind_storeErase_ne m key k' hk

/-- C10 witness: a concrete two-entry store; removing a present key
succeeds and leaves the other binding, removing it again fails and
changes nothing. -/
theorem C10_remove_spec_witness :
    (storeRemove [("a", DataEntry.mk "a" (DataValue.int 1) 0),
        ("b", DataEntry.mk "b" (DataValue.bool true) 0)] "a").1 = true
    ∧ storeFind (storeRemove [("a", DataEntry.mk "a" (DataValue.int 1) 0),
        ("b", DataEntry.mk "b" (DataValue.bool true) 0)] "a").2 "a" = none
    ∧ storeFind (storeRemove [("a", DataEntry.mk "a" (DataValue.int 1) 0),
        ("b", DataEntry.mk "b" (DataValue.bool true) 0)] "a").2 "b"
      = storeFind [("a", DataEntry.mk "a" (DataValue.int 1) 0),
        ("b", DataEntry.mk "b" (DataValue.bool true) 0)] "b" := by
  have h := C10_remove_spec
    [("a", DataEntry.mk "a" (DataValue.int 1) 0),
     ("b", DataEntry.mk "b" (DataValue.bool true) 0)] "a" (by decide)
  exact ⟨h.1.mpr (by rfl), h.2.2.1 (h.1.mpr (by rfl)), h.2.2.2 "b" (by decide)⟩

end Mini2
